import Mathlib

/-!
Verification of `src/main.py` — a pygame text adventure with a typewriter
text effect and a string-keyed branching story tree.

The development shallowly embeds the two core components:
* `Typewriter` — the state of the `TypewriterText` class (`set_text`,
  `update`, `complete`, `is_finished`, `wrap_text`), with pygame's
  millisecond clock passed in explicitly as a `Nat` timestamp;
* the choice-handling step of `main`'s event loop (`handleChoice`), with
  the hardcoded `choices_tree` dictionary embedded as an association list.

Python `dict.get` with a default is mirrored by `Option`/`getD`; the
truthiness test `if node.get("choices")` is mirrored by a non-emptiness
test, which agrees with Python both when the key is missing (`None`,
falsy) and when it holds a list (empty list falsy). `dict[key]` (which
raises `KeyError` on a missing key) is mirrored by returning `none` from
the whole step.
-/

namespace Adventure

/-! ## Typewriter state (class `TypewriterText`) -/

/-- State of a `TypewriterText` object: the fields mutated after
construction (`full_text`, `current_index`, `last_update`) plus the
per-character `delay` fixed at construction. Timestamps are
`pygame.time.get_ticks()` milliseconds, modelled as `Nat`. -/
structure Typewriter where
  full_text : String
  current_index : Nat
  last_update : Nat
  delay : Nat
  deriving Repr, DecidableEq

/-- `TypewriterText.is_finished`: `self.current_index >= len(self.full_text)`. -/
def Typewriter.is_finished (tw : Typewriter) : Bool :=
  tw.full_text.length ≤ tw.current_index

/-- `TypewriterText.set_text`: store the new text, reset `current_index`
to 0 and take a fresh clock reading for `last_update` (the sound-channel
stop has no modelled state). -/
def Typewriter.set_text (tw : Typewriter) (text : String) (now : Nat) : Typewriter :=
  { tw with full_text := text, current_index := 0, last_update := now }

/-- `TypewriterText.__init__(text, ..., delay, ...)`: fields start at
`full_text = ""`, `current_index = 0`, `last_update = 0`, then
`set_text(text)` runs at clock time `now`. -/
def Typewriter.mk0 (text : String) (delay : Nat) (now : Nat) : Typewriter :=
  Typewriter.set_text { full_text := "", current_index := 0, last_update := 0, delay := delay } text now

/-- `TypewriterText.update`: reveal one more character when the text is
unfinished and strictly more than `delay` milliseconds have elapsed since
`last_update`; the second stanza (stopping the sound channel when
finished) has no modelled state. `now - last_update` is Python integer
subtraction; since pygame's clock is monotone the `Nat` truncated
subtraction agrees (a negative difference and a truncated-to-0 difference
both fail the `> delay` test). -/
def Typewriter.update (tw : Typewriter) (now : Nat) : Typewriter :=
  if tw.is_finished = false ∧ tw.delay < now - tw.last_update then
    { tw with last_update := now, current_index := tw.current_index + 1 }
  else tw

/-- `TypewriterText.complete`: jump `current_index` to the full length. -/
def Typewriter.complete (tw : Typewriter) : Typewriter :=
  { tw with current_index := tw.full_text.length }

/-- One externally driven operation on the typewriter, tagged with the
clock reading at which it runs. -/
inductive TWStep where
  | setText (text : String) (now : Nat)
  | update (now : Nat)
  | complete
  deriving Repr, DecidableEq

def Typewriter.runStep (tw : Typewriter) : TWStep → Typewriter
  | .setText text now => tw.set_text text now
  | .update now => tw.update now
  | .complete => tw.complete

def Typewriter.runSteps (tw : Typewriter) (steps : List TWStep) : Typewriter :=
  steps.foldl Typewriter.runStep tw

/-- Iterated `update` at a schedule of clock readings. -/
def Typewriter.updates (tw : Typewriter) (ts : List Nat) : Typewriter :=
  ts.foldl Typewriter.update tw

/-- The reveal-count invariant `current_index ≤ len(full_text)` (the lower
bound `0 ≤ current_index` is inherent in `Nat`, matching Python where the
index starts at 0 and only grows). -/
def Typewriter.Inv (tw : Typewriter) : Prop :=
  tw.current_index ≤ tw.full_text.length

instance (tw : Typewriter) : Decidable tw.Inv := by
  unfold Typewriter.Inv; infer_instance

/-! ## Word wrapping (`TypewriterText.wrap_text`)

`wrap_text` is parameterised by the pygame font through
`fontWidth : String → Nat`, the pixel width `self.font.size(s)[0]` of a
rendered string, and by `max_width`. Python's `str.strip()` and
`str.split(sep)` are re-implemented with their exact semantics:
`strip` removes Python's full whitespace class — the ASCII whitespace
characters and the Unicode ones (NBSP, the U+2000 block, etc.) — from
both ends, and `split(sep)` with an explicit separator keeps empty
fields (so `"".split(sep) == [""]` and
`"a  b".split(" ") == ["a", "", "b"]`). -/

/-- The whitespace character class of Python `str.strip()` (equivalently
`str.isspace` on a single character): the ASCII ranges U+0009–U+000D and
U+001C–U+0020, plus the Unicode whitespace characters U+0085, U+00A0,
U+1680, U+2000–U+200A, U+2028, U+2029, U+202F, U+205F and U+3000. -/
def pyIsSpace (c : Char) : Bool :=
  ('\x09' ≤ c ∧ c ≤ '\x0d') ∨ ('\x1c' ≤ c ∧ c ≤ '\x20') ∨
  c = '\x85' ∨ c = '\xa0' ∨ c = '\u1680' ∨
  ('\u2000' ≤ c ∧ c ≤ '\u200a') ∨ c = '\u2028' ∨ c = '\u2029' ∨
  c = '\u202f' ∨ c = '\u205f' ∨ c = '\u3000'

/-- Python `str.strip()` on a character list. -/
def pyStripL (l : List Char) : List Char :=
  ((l.dropWhile pyIsSpace).reverse.dropWhile pyIsSpace).reverse

/-- Python `str.strip()`. -/
def pyStrip (s : String) : String :=
  String.mk (pyStripL s.data)

/-- Python `str.split(sep)` with an explicit one-character separator, on a
character list: fields between separators are kept even when empty, and
the empty string yields one empty field. -/
def pySplit (sep : Char) : List Char → List (List Char)
  | [] => [[]]
  | c :: rest =>
    let r := pySplit sep rest
    if c = sep then [] :: r
    else
      match r with
      | [] => [[c]]
      | g :: gs => (c :: g) :: gs

/-- Python `str.split(sep)` on strings. -/
def pySplitStr (sep : Char) (s : String) : List String :=
  (pySplit sep s.data).map String.mk

/-- The body of `wrap_text`'s inner `for word in words` loop: the
accumulator pairs the emitted `wrapped_lines` of the current paragraph so
far with `current_line`. The candidate is
`test_line = f"{current_line} {word}".strip()`, accepted when
`self.font.size(test_line)[0] <= self.max_width`. -/
def wrapStep (fontWidth : String → Nat) (max_width : Nat)
    (acc : List String × String) (word : String) : List String × String :=
  let test_line := pyStrip (acc.2 ++ " " ++ word)
  if fontWidth test_line ≤ max_width then (acc.1, test_line)
  else (acc.1 ++ [acc.2], word)

/-- `TypewriterText.wrap_text`'s handling of one paragraph (one
newline-delimited segment): a whitespace-only paragraph emits one empty
line; otherwise the paragraph is split on `' '` and lines are grown
greedily, the final `current_line` being flushed after the loop. -/
def wrapParagraph (fontWidth : String → Nat) (max_width : Nat) (p : String) : List String :=
  if pyStrip p = "" then [""]
  else
    let st := (pySplitStr ' ' p).foldl (wrapStep fontWidth max_width) ([], "")
    st.1 ++ [st.2]

/-- `TypewriterText.wrap_text`: split the text on explicit newlines and
wrap each paragraph in order. -/
def wrap_text (fontWidth : String → Nat) (max_width : Nat) (text : String) : List String :=
  (pySplitStr '\n' text).flatMap (wrapParagraph fontWidth max_width)

/-- The space-separated non-empty words of a string (Python
`[w for w in s.split(' ') if w]`), the currency of the word-preservation
property. -/
def wordsOf (s : String) : List String :=
  (pySplitStr ' ' s).filter (fun w => w ≠ "")

/-- Join a list of character-list words with single `' '` separators
(the canonical shape of `current_line` during greedy wrapping). -/
def joinSp : List (List Char) → List Char
  | [] => []
  | [g] => g
  | g :: gs => g ++ ' ' :: joinSp gs


/-! ## Story graph and the choice-handling step of `main`

The `choices_tree` dictionary maps node keys to dictionaries that carry
either `"text"` and `"choices"` or `"redirect"`. `StoryNode` mirrors the
`.get` access patterns of the handler: `text : Option String` because
`.get("text", default)` distinguishes a missing key, `choices` as a plain
list because `.get("choices", [])` and the truthiness of
`.get("choices")` both collapse a missing key and `[]`, and
`redirect : Option String` because the handler tests `"redirect" in
target_node`. -/

structure StoryNode where
  text : Option String := none
  choices : List String := []
  redirect : Option String := none
  deriving Repr, DecidableEq

/-- Dictionary lookup `choices_tree.get(key)` on the association list. -/
def lookupNode (tree : List (String × StoryNode)) (key : String) : Option StoryNode :=
  (tree.find? (fun e => e.1 == key)).map (fun e => e.2)

/-- The `game_state` variable: `"narrative"`, `"choice"` or `"ending"`. -/
inductive GamePhase where
  | narrative
  | choice
  | ending
  deriving Repr, DecidableEq

/-- The mutable state of `main`'s loop that the choice handler touches:
`game_state`, `current_node_key` and the `typewriter` object. -/
structure GameState where
  game_state : GamePhase
  current_node_key : String
  typewriter : Typewriter
  deriving Repr, DecidableEq

/-- Key derivation (lines 361–364): `str(choice_index + 1)` from the root
key `"start"`, else `f"{current_node_key}_{choice_index + 1}"`. -/
def derivedKey (current_node_key : String) (choice_index : Int) : String :=
  if current_node_key = "start" then toString (choice_index + 1)
  else current_node_key ++ "_" ++ toString (choice_index + 1)

/-- The fixed fallback message for a derived key absent from the tree. -/
def unwrittenMsg : String :=
  "This path has not been written yet. The story ends here."

/-- `choice_index` as computed from a pygame key code: keys `K_1 = 49`
through `K_9 = 57` give indices 0–8, every other key leaves the initial
`-1`. -/
def choiceIndexOfKey (key : Int) : Int :=
  if 49 ≤ key ∧ key ≤ 57 then key - 49 else -1

/-- The choice-handling block of `main`'s event loop (lines 353–387),
run when `game_state == "choice"`, at clock time `now`:
out-of-range indices fall through with no state change; an existing
derived key is followed (through at most one `redirect`), the typewriter
is reset with the resolved node's text (`"The story ends here."` when the
resolved node has no `"text"` key) and `game_state` becomes
`"narrative"` or `"ending"` by the truthiness of the resolved node's
choices; a missing derived key sets the unwritten-path message and the
ending state. Returns `none` exactly when Python would raise `KeyError`
at `choices_tree[current_node_key]`, i.e. when a redirect target is
absent from the dictionary (never reached for the authored data). -/
def handleChoice (tree : List (String × StoryNode)) (now : Nat)
    (s : GameState) (choice_index : Int) : Option GameState :=
  let current_choices := ((lookupNode tree s.current_node_key).map StoryNode.choices).getD []
  if 0 ≤ choice_index ∧ choice_index < (current_choices.length : Int) then
    let next_key := derivedKey s.current_node_key choice_index
    match lookupNode tree next_key with
    | some target_node =>
      let new_key :=
        match target_node.redirect with
        | some r => r
        | none => next_key
      match lookupNode tree new_key with
      | some node =>
        some { s with
          current_node_key := new_key,
          typewriter := s.typewriter.set_text (node.text.getD "The story ends here.") now,
          game_state := if node.choices ≠ [] then .narrative else .ending }
      | none => none
    | none =>
      some { s with
        typewriter := s.typewriter.set_text unwrittenMsg now,
        game_state := .ending }
  else some s

/-- The `initial_story` string, the text of node `"start"`. -/
def initial_story : String :=
  "Chapter 1: The Awakening\n\nYou are playing a newly released game in a dark, silent room. It's your deserved reward after all.\nYou waited 14 years for it. Now it is finally available in your hand. Enjoying it is your virtue.\nBut some noise starts coming apart, disturbing your joy in the process."

/-- The hardcoded `choices_tree` dictionary of `main`, as an ordered
association list (one entry per dictionary key, in source order). -/
def choices_tree : List (String × StoryNode) := [
  ("start",
    { text := some initial_story,
      choices := ["Investigate the noise",
      "Ignore it"] }),
  ("1",
    { text := some "You chose to investigate the noise. It becomes more static, giving eerie vibes and it grows louder.\nDo you really want to investigate the sound or call someone?",
      choices := ["Yes, these things don't scare me anymore.",
      "Call someone for help"] }),
  ("2",
    { text := some "You chose to ignore the noise. You enjoy the loading screen and one specific picture.\nNoise from outside starts growing?\nDo you want to investigate the sound or keep playing anyway?",
      choices := ["Ahh! So irritating",
      "Keep playing anyway"] }),
  ("1_1",
    { text := some "You move forward, braver now. After all, it's your home. If you don't protect it, who will? Bracing yourself, you cross the hallway to the door. There you see your coat hanging on a metal hanger.",
      choices := ["Wear coat",
      "Wear coat and take metal hanger as weapon",
      "Just enter"] }),
  ("1_2",
    { text := some "You try to call someone, but there's no signal. You're confusedâ€”the signal is always strong in this room.",
      choices := ["Investigate the sound by yourself",
      "Go back and try again with your PC"] }),
  ("2_1",
    { text := some "You stand up angrily. Irritated by the noise, you grab a nearby flashlight and the beer bottle you were about to enjoy with your game.",
      choices := ["Rush the hallway",
      "Walk the hallway in a normal pace"] }),
  ("2_2",
    { text := some "You keep playing. Now you control the playable character.",
      choices := ["Punch an NPC",
      "Do a mission in the game"] }),
  ("1_1_1",
    { text := some "You wear the coat. It feels heavier than usual, but provides a small sense of security. You grip the doorknob. It's strangely cold, almost unnaturally so as you slowly turn it. The noise on the other side stops abruptly. The silence is now even more terrifying than the noise was.",
      choices := ["fling the door open.",
      "Open the door slowly and peek.",
      "Call out,'Who's there?"] }),
  ("1_1_2",
    { text := some "You wear the coat and rip the metal hanger off the hook. You bend it into a crude, sharp point. It feels better than nothing. You grip the doorknob. It's strangely cold, almost unnaturally so as you slowly turn it. The noise on the other side stops abruptly.",
      choices := ["fling the door open.",
      "Open the door slowly and peek.",
      "Call out, 'Who's there?'"] }),
  ("1_1_3",
    { text := some "You decide to face whatever is there with your undies that you were wearing. You slowly, silently, turn the knob slowly which felt strangely cold and the noise beyond the door stop suddenly.",
      choices := ["Push the door fully open.",
      "Close the door and reconsider."] }),
  ("1_2_1", { redirect := some "1_1" }),
  ("1_2_2",
    { text := some "You decide this is too strange. You go back to your PC, You cancel the game that you were so desperate to play but you didn't download from offical website so you were redirected to a porn site.",
      choices := ["Try to close the porn site.",
      "Enjoy it afterall who is looking?",
      "Force shutdown the pc"] }),
  ("2_1_1",
    { text := some "Fueled by annoyance, you rush down the hallway, flashlight beam bouncing wildly. You round the corner to the hallway and kicks open the door and the light falls on a oddly figure. It's tall, unnaturally thin, and turns its head towards you with an audible crack of neck.",
      choices := ["Throw the beer bottle at it.",
      "Freeze and stare in it eyes."] }),
  ("2_1_2",
    { text := some "You walk calmly, flashlight off, using the dim moonlight to see. The noise is a rhythmic scraping coming from the outside of hallway room. You open the door and light falls on a oddly figure. It's tall, unnaturally thin, and turns its head towards you with an audible crack of neck.",
      choices := ["Flick on the flashlight to startle it.",
      "Quietly back away."] }),
  ("2_2_1",
    { text := some "Every start of a game of Gta,we always punch a npc to celebrate the download of the game and so you did it. Keeping the tradition alive.",
      choices := ["Punch even more npc?",
      "Investigate the sound that irritating you?"] }),
  ("2_2_2",
    { text := some "You ignore the real-world noise and focus on the game. The quest-giver, a mafia, looks at you, but his dialogue box says, 'Gang B is has stolen ours supplies recover it or you dead' The text is bright red",
      choices := ["Kill the Npc.",
      "Ask the NPC a question in-game.",
      "Investigate the sound that irritating you?"] }),
  ("1_1_1_1",
    { text := some "You throw the door open to an empty living room. You hear rough breathing sound towards a certain direction.",
      choices := ["Flash your flashlight towards it.",
      "throw the flashlight at it.",
      "Scream at it."] }),
  ("1_1_1_2",
    { text := some "You peek out. Closing your flashlight so you can be like an assassin. You open the door slowly.",
      choices := ["Crawl on the surface.",
      "Crouch on the surface and walk",
      "Walk in this situation."] }),
  ("1_1_1_3",
    { text := some "Your voice echoes in the silent house. There is no reply.",
      choices := ["Flash your flashlight at random direction",
      "Shout once again",
      "Go back inside"] }),
  ("1_1_2_1",
    { text := some "You burst through the door with a war cry and enters the living room while flashing the light falls on an oddly figure. It's tall, unnaturally thin, and turns its head towards you with an audible crack of neck.",
      choices := ["Flash your flashlight on it.",
      "Throw the nearby chair at it",
      "Try to talk with it"] }),
  ("1_1_2_2",
    { text := some "Holding your makeshift weapon in your hand you cautiously turn the doorknob, peeking through the door as cautiously as possible.\n\nWhat would you do next?",
      choices := ["Crawl on the surface.",
      "Crouch on the surface and walk",
      "Walk in this situation."] }),
  ("1_1_2_3",
    { text := some "After opening the door. You call out by saying, 'Who's there? If you are a thief, you picked the wrong house, mate. I will call the police in a few seconds. You hear me, mate?'",
      choices := ["Wait for the response",
      "Start calling the police",
      "Step more forward with your flashlight."] }),
  ("1_1_3_1",
    { text := some "You push the door open proudly. You don't need a weapon to respond to such danger or anything. Flashing your light, you see an oddly figure. It's tall and unnaturally thin. Turning its head slowly towards the direction of the light.",
      choices := ["'Who are you?' or 'What are you?'",
      "Give a 'War cry'",
      "Just go back inside"] }),
  ("1_1_3_2",
    { text := some "You got an awakening and finally your one brain cell thought: 'Is it really okay to fight in my undies?'",
      choices := ["Wear the coat",
      "Wear coat and take metal hanger as weapon",
      "Just enter (again)"] })
]

/-- The game state at the moment the first choice is offered: the
typewriter was constructed with node `"start"`'s text and `delay=30`, and
`game_state` has switched to `"choice"`. -/
def initState : GameState :=
  { game_state := .choice, current_node_key := "start",
    typewriter := Typewriter.mk0 initial_story 30 0 }

/-- A convenient state at an arbitrary current node `key` in the choice
phase (the typewriter contents are irrelevant to the handler's control
flow). -/
def stateAt (key : String) : GameState :=
  { game_state := .choice, current_node_key := key,
    typewriter := Typewriter.mk0 "" 30 0 }

/-- A hypothetical story table with a chained redirect
(`"1"` → `"A"` → `"B"`), exercising the handler on data the authored
table never contains. -/
def redirectChainTree : List (String × StoryNode) := [
  ("start", { text := some "The start.", choices := ["go"] }),
  ("1", { redirect := some "A" }),
  ("A", { redirect := some "B" }),
  ("B", { text := some "deep text", choices := ["x"] })]

/-- A hypothetical story table with a redirect cycle (`"1"` → `"1"`). -/
def redirectCycleTree : List (String × StoryNode) := [
  ("start", { text := some "The start.", choices := ["go"] }),
  ("1", { redirect := some "1" })]


theorem Typewriter.not_finished_iff (tw : Typewriter) :
    tw.is_finished = false ↔ tw.current_index < tw.full_text.length := by
  simp [is_finished, Nat.not_le]

theorem Typewriter.inv_runStep (tw : Typewriter) (h : tw.Inv) (step : TWStep) :
    (tw.runStep step).Inv := by
  cases step with
  | setText text now => simp [runStep, set_text, Inv]
  | update now =>
    by_cases hc : tw.is_finished = false ∧ tw.delay < now - tw.last_update
    · have hf : tw.current_index < tw.full_text.length := (tw.not_finished_iff).mp hc.1
      simp only [runStep, update, if_pos hc, Inv]
      omega
    · simp only [runStep, update, if_neg hc]
      exact h
  | complete => simp [runStep, complete, Inv]

theorem Typewriter.inv_runSteps (tw : Typewriter) (h : tw.Inv) (steps : List TWStep) :
    (tw.runSteps steps).Inv := by
  induction steps generalizing tw with
  | nil => exact h
  | cons s rest ih =>
    simpa [runSteps] using ih (tw.runStep s) (tw.inv_runStep h s)

theorem Typewriter.update_index_ge (tw : Typewriter) (now : Nat) :
    tw.current_index ≤ (tw.update now).current_index := by
  by_cases hc : tw.is_finished = false ∧ tw.delay < now - tw.last_update
  · simp [update, hc]
  · simp [update, hc]

theorem Typewriter.update_delay_eq (tw : Typewriter) (now : Nat) :
    (tw.update now).delay = tw.delay := by
  unfold update
  split <;> rfl

theorem Typewriter.updates_index_ge (tw : Typewriter) (ts : List Nat) :
    tw.current_index ≤ (tw.updates ts).current_index := by
  induction ts generalizing tw with
  | nil => simp [updates]
  | cons t rest ih =>
    have h1 := tw.update_index_ge t
    have h2 := ih (tw.update t)
    calc tw.current_index ≤ (tw.update t).current_index := h1
      _ ≤ ((tw.update t).updates rest).current_index := h2
      _ = (tw.updates (t :: rest)).current_index := by simp [updates]

/-- Over any update schedule, each revealed character takes strictly more
than `delay` milliseconds of clock advance: the clock advance from
`last_update` bounds `(delay + 1) ×` the number of characters revealed. -/
theorem Typewriter.updates_rate (tw : Typewriter) (ts : List Nat) :
    tw.last_update + ((tw.updates ts).current_index - tw.current_index) * (tw.delay + 1)
      ≤ (tw.updates ts).last_update := by
  induction ts generalizing tw with
  | nil => simp [updates]
  | cons t rest ih =>
    have hstep : tw.updates (t :: rest) = (tw.update t).updates rest := by
      simp [updates]
    rw [hstep]
    have htail := ih (tw.update t)
    rw [tw.update_delay_eq t] at htail
    have hmono : (tw.update t).current_index ≤ ((tw.update t).updates rest).current_index :=
      (tw.update t).updates_index_ge rest
    by_cases hc : tw.is_finished = false ∧ tw.delay < t - tw.last_update
    · have h2 := hc.2
      have ht : tw.last_update + tw.delay + 1 ≤ t := by omega
      have e1 : (tw.update t).current_index = tw.current_index + 1 := by
        simp [update, hc]
      have e2 : (tw.update t).last_update = t := by
        simp [update, hc]
      rw [e1, e2] at htail
      rw [e1] at hmono
      rw [show ((tw.update t).updates rest).current_index - tw.current_index
            = (((tw.update t).updates rest).current_index - (tw.current_index + 1)) + 1 from by
          omega,
        Nat.add_mul]
      omega
    · have hup : tw.update t = tw := by
        simp [update, hc]
      rw [hup] at htail ⊢
      exact htail

theorem Typewriter.update_index_le (tw : Typewriter) (now : Nat) :
    (tw.update now).current_index ≤ tw.current_index + 1 := by
  by_cases hc : tw.is_finished = false ∧ tw.delay < now - tw.last_update
  · simp [update, hc]
  · simp [update, hc]

theorem Typewriter.updates_gain_le (tw : Typewriter) (ts : List Nat) :
    (tw.updates ts).current_index ≤ tw.current_index + ts.length := by
  induction ts generalizing tw with
  | nil => simp [updates]
  | cons t rest ih =>
    have h1 := tw.update_index_le t
    have h2 := ih (tw.update t)
    have hstep : tw.updates (t :: rest) = (tw.update t).updates rest := by
      simp [updates]
    rw [hstep]
    simp only [List.length_cons]
    omega

theorem Typewriter.complete_finished (tw : Typewriter) :
    tw.complete.is_finished = true := by
  simp [complete, is_finished]

/-- C5: the revealed-character count satisfies `0 ≤ current_index ≤
len(full_text)` after every sequence of constructor/`set_text`/`update`/
`complete` operations (the lower bound is inherent in `Nat`); `update` and
`complete` never decrease it; and it is reset to 0 exactly by `set_text`
and by construction. -/
theorem C5_reveal_count_invariant :
    (∀ text delay now0 steps,
        ((Typewriter.mk0 text delay now0).runSteps steps).Inv) ∧
    (∀ (tw : Typewriter) (now : Nat), tw.current_index ≤ (tw.update now).current_index) ∧
    (∀ tw : Typewriter, tw.Inv → tw.current_index ≤ tw.complete.current_index) ∧
    (∀ (tw : Typewriter) (text : String) (now : Nat),
        (tw.set_text text now).current_index = 0) ∧
    (∀ text delay now0, (Typewriter.mk0 text delay now0).current_index = 0) := by
  refine ⟨?_, ?_, ?_, ?_, ?_⟩
  · intro text delay now0 steps
    apply Typewriter.inv_runSteps
    simp [Typewriter.mk0, Typewriter.set_text, Typewriter.Inv]
  · exact fun tw now => tw.update_index_ge now
  · intro tw h
    simpa [Typewriter.complete] using h
  · intro tw text now
    rfl
  · intro text delay now0
    rfl

/-- C5 witness at concrete inputs. -/
theorem C5_reveal_count_invariant_witness :
    ((Typewriter.mk0 "ab" 30 0).runSteps [TWStep.update 31, TWStep.complete]).Inv ∧
    (Typewriter.mk "ab" 1 0 30).current_index ≤ (Typewriter.mk "ab" 1 0 30).complete.current_index :=
  ⟨C5_reveal_count_invariant.1 "ab" 30 0 [TWStep.update 31, TWStep.complete],
   C5_reveal_count_invariant.2.2.1 (Typewriter.mk "ab" 1 0 30) (by decide)⟩

/-- C6: one `update` call advances `current_index` by exactly one
character precisely when the text is unfinished and strictly more than
`delay` milliseconds of wall-clock time elapsed since the last reveal
tick — and otherwise the call leaves the whole state unchanged, so extra
frames are no-ops; consequently over every schedule of `update` calls the
reveal count grows by at most one per call, and each revealed character
consumes strictly more than `delay` milliseconds of clock advance
(wall-clock-bounded rate, independent of frame rate). -/
theorem C6_frame_rate_independent_reveal :
    (∀ (tw : Typewriter) (now : Nat),
        (tw.is_finished = false ∧ tw.delay < now - tw.last_update →
            (tw.update now).current_index = tw.current_index + 1 ∧
            (tw.update now).last_update = now) ∧
        (¬(tw.is_finished = false ∧ tw.delay < now - tw.last_update) →
            tw.update now = tw)) ∧
    (∀ (tw : Typewriter) (ts : List Nat),
        (tw.updates ts).current_index - tw.current_index ≤ ts.length ∧
        tw.last_update + ((tw.updates ts).current_index - tw.current_index) * (tw.delay + 1)
          ≤ (tw.updates ts).last_update) := by
  refine ⟨fun tw now => ⟨fun hc => ?_, fun hc => ?_⟩, fun tw ts => ⟨?_, ?_⟩⟩
  · constructor <;> simp [Typewriter.update, hc]
  · simp [Typewriter.update, hc]
  · have := tw.updates_gain_le ts
    omega
  · exact tw.updates_rate ts

/-- C6 witness at concrete inputs. -/
theorem C6_frame_rate_independent_reveal_witness :
    ((Typewriter.mk "ab" 0 0 30).update 31).current_index = (Typewriter.mk "ab" 0 0 30).current_index + 1 ∧
    (Typewriter.mk "ab" 0 0 30).update 10 = Typewriter.mk "ab" 0 0 30 :=
  ⟨((C6_frame_rate_independent_reveal.1 (Typewriter.mk "ab" 0 0 30) 31).1 (by decide)).1,
   (C6_frame_rate_independent_reveal.1 (Typewriter.mk "ab" 0 0 30) 10).2 (by decide)⟩

/-- C7: on every state satisfying the reveal-count invariant (which holds
in every reachable state, by C5's first conjunct), `is_finished` is true
iff `current_index` equals `len(full_text)`; and `complete()` followed by
`is_finished()` yields true from any prior state whatsoever. -/
theorem C7_finished_contract :
    (∀ tw : Typewriter, tw.Inv →
        (tw.is_finished = true ↔ tw.current_index = tw.full_text.length)) ∧
    (∀ tw : Typewriter, tw.complete.is_finished = true) := by
  refine ⟨fun tw h => ?_, fun tw => tw.complete_finished⟩
  simp only [Typewriter.is_finished, decide_eq_true_eq]
  unfold Typewriter.Inv at h
  omega

/-- C7 witness at concrete inputs. -/
theorem C7_finished_contract_witness :
    ((Typewriter.mk "ab" 2 0 30).is_finished = true ↔
      (Typewriter.mk "ab" 2 0 30).current_index = (Typewriter.mk "ab" 2 0 30).full_text.length) ∧
    (Typewriter.mk "abc" 1 7 30).complete.is_finished = true :=
  ⟨C7_finished_contract.1 (Typewriter.mk "ab" 2 0 30) (by decide),
   C7_finished_contract.2 (Typewriter.mk "abc" 1 7 30)⟩

/-! ## Lemmas about the Python split/strip models -/

theorem pySplit_ne_nil (sep : Char) (l : List Char) : pySplit sep l ≠ [] := by
  cases l with
  | nil => simp [pySplit]
  | cons c rest =>
    simp only [pySplit]
    by_cases hc : c = sep
    · simp [hc]
    · simp only [if_neg hc]
      cases pySplit sep rest <;> simp

theorem pySplit_mem (sep : Char) (l : List Char) :
    ∀ g ∈ pySplit sep l, ∀ c ∈ g, c ∈ l ∧ c ≠ sep := by
  induction l with
  | nil =>
    intro g hg c hc
    simp only [pySplit, List.mem_singleton] at hg
    subst hg
    simp at hc
  | cons d rest ih =>
    intro g hg c hc
    by_cases hd : d = sep
    · rw [show pySplit sep (d :: rest) = [] :: pySplit sep rest by simp [pySplit, hd]] at hg
      rcases List.mem_cons.mp hg with h | h
      · subst h; simp at hc
      · have := ih g h c hc
        exact ⟨List.mem_cons_of_mem _ this.1, this.2⟩
    · rcases hr : pySplit sep rest with _ | ⟨g0, gs⟩
      · exact absurd hr (pySplit_ne_nil sep rest)
      · rw [show pySplit sep (d :: rest) = (d :: g0) :: gs by simp [pySplit, hd, hr]] at hg
        rcases List.mem_cons.mp hg with h | h
        · subst h
          rcases List.mem_cons.mp hc with h' | h'
          · subst h'
            exact ⟨List.mem_cons_self _ _, hd⟩
          · have hg0 : g0 ∈ pySplit sep rest := by rw [hr]; exact List.mem_cons_self _ _
            have := ih g0 hg0 c h'
            exact ⟨List.mem_cons_of_mem _ this.1, this.2⟩
        · have hgm : g ∈ pySplit sep rest := by rw [hr]; exact List.mem_cons_of_mem _ h
          have := ih g hgm c hc
          exact ⟨List.mem_cons_of_mem _ this.1, this.2⟩

theorem wrapStep_fold_pred (fw : String → Nat) (mw : Nat) :
    ∀ (words : List String) (acc : List String × String),
      (∀ w ∈ words, ' ' ∉ w.data) →
      (∀ l ∈ acc.1, fw l ≤ mw ∨ ' ' ∉ l.data) →
      (fw acc.2 ≤ mw ∨ ' ' ∉ acc.2.data) →
      (∀ l ∈ (words.foldl (wrapStep fw mw) acc).1, fw l ≤ mw ∨ ' ' ∉ l.data) ∧
        (fw (words.foldl (wrapStep fw mw) acc).2 ≤ mw ∨
          ' ' ∉ (words.foldl (wrapStep fw mw) acc).2.data) := by
  intro words
  induction words with
  | nil =>
    intro acc _ h1 h2
    exact ⟨h1, h2⟩
  | cons w rest ih =>
    intro acc hw h1 h2
    have hw' : ∀ x ∈ rest, ' ' ∉ x.data := fun x hx => hw x (List.mem_cons_of_mem _ hx)
    have hwh : ' ' ∉ w.data := hw w (List.mem_cons_self _ _)
    simp only [List.foldl_cons]
    by_cases hfit : fw (pyStrip (acc.2 ++ " " ++ w)) ≤ mw
    · have hstep : wrapStep fw mw acc w = (acc.1, pyStrip (acc.2 ++ " " ++ w)) := by
        simp [wrapStep, hfit]
      rw [hstep]
      exact ih _ hw' h1 (Or.inl hfit)
    · have hstep : wrapStep fw mw acc w = (acc.1 ++ [acc.2], w) := by
        simp [wrapStep, hfit]
      rw [hstep]
      refine ih _ hw' ?_ (Or.inr hwh)
      intro l hl
      rcases List.mem_append.mp hl with h | h
      · exact h1 l h
      · rw [List.mem_singleton.mp h]
        exact h2

theorem wrapParagraph_pred (fw : String → Nat) (mw : Nat) (p : String) :
    ∀ line ∈ wrapParagraph fw mw p, fw line ≤ mw ∨ ' ' ∉ line.data := by
  intro line hl
  by_cases hp : pyStrip p = ""
  · simp only [wrapParagraph, if_pos hp, List.mem_singleton] at hl
    subst hl
    right
    simp
  · simp only [wrapParagraph, if_neg hp] at hl
    have hw : ∀ w ∈ pySplitStr ' ' p, ' ' ∉ w.data := by
      intro w hwm hc
      rcases List.mem_map.mp hwm with ⟨g, hg, rfl⟩
      exact (pySplit_mem ' ' p.data g hg ' ' hc).2 rfl
    have hmain := wrapStep_fold_pred fw mw (pySplitStr ' ' p) ([], "") hw
      (by intro l hl'; simp at hl') (by right; simp)
    rcases List.mem_append.mp hl with h | h
    · exact hmain.1 line h
    · rw [List.mem_singleton.mp h]
      exact hmain.2

/-- C8 (amended): every line emitted by `wrap_text` either fits within
`max_width` under the given font width function or contains no space at
all — an unsplittable single word may exceed `max_width`, which is what
the original claim missed. -/
theorem C8_wrap_width (fw : String → Nat) (mw : Nat) (text : String) :
    ∀ line ∈ wrap_text fw mw text, fw line ≤ mw ∨ ' ' ∉ line.data := by
  intro line hl
  simp only [wrap_text] at hl
  rcases List.mem_flatMap.mp hl with ⟨p, _, hlp⟩
  exact wrapParagraph_pred fw mw p line hlp

/-- C8 counterexample to the claim as stated: with the per-character
pixel width `String.length` and `max_width = 3`, wrapping the single
over-long word `"abcd"` emits the line `"abcd"` of width 4 > 3 (and a
spurious empty line before it). -/
theorem C8_wrap_width_counterexample :
    wrap_text String.length 3 "abcd" = ["", "abcd"] ∧
    "abcd" ∈ wrap_text String.length 3 "abcd" ∧
    ¬ String.length "abcd" ≤ 3 := by decide

/-- C8 witness at concrete inputs. -/
theorem C8_wrap_width_witness :
    String.length "aa bb" ≤ 5 ∨ ' ' ∉ "aa bb".data :=
  C8_wrap_width String.length 5 "aa bb cc" "aa bb" (by decide)

/-- C9 counterexample to the claim as stated: wrapping the empty string
does not produce zero lines — `"".split('\n')` is `[""]` in Python and
the whitespace-only-paragraph branch appends one blank line, so the
result has length 1. -/
theorem C9_wrap_empty_counterexample :
    wrap_text String.length 10 "" = [""] ∧
    (wrap_text String.length 10 "").length ≠ 0 := by decide

/-- C9 (amended): wrapping the empty string produces exactly one blank
line (the empty text is itself a single whitespace-only paragraph), and
every whitespace-only paragraph contributes exactly one blank line to the
output rather than being dropped, `wrap_text` being the in-order
concatenation of the per-paragraph line lists. -/
theorem C9_wrap_edge_policy :
    (∀ (fw : String → Nat) (mw : Nat), wrap_text fw mw "" = [""]) ∧
    (∀ (fw : String → Nat) (mw : Nat) (p : String),
        pyStrip p = "" → wrapParagraph fw mw p = [""]) ∧
    (∀ (fw : String → Nat) (mw : Nat) (text : String),
        wrap_text fw mw text = (pySplitStr '\n' text).flatMap (wrapParagraph fw mw)) := by
  refine ⟨fun fw mw => rfl, fun fw mw p hp => ?_, fun fw mw text => rfl⟩
  simp [wrapParagraph, hp]

/-- C9 witness at concrete inputs. -/
theorem C9_wrap_edge_policy_witness :
    wrapParagraph String.length 4 "  " = [""] :=
  C9_wrap_edge_policy.2.1 String.length 4 "  " (by decide)

/-! ## Canonical-join lemmas for word preservation -/

theorem pySplit_no_sep (sep : Char) (l : List Char) (h : sep ∉ l) :
    pySplit sep l = [l] := by
  induction l with
  | nil => rfl
  | cons c rest ih =>
    have hc : ¬ c = sep := fun hcc => h (hcc ▸ List.mem_cons_self _ _)
    have hr : pySplit sep rest = [rest] := ih (fun hm => h (List.mem_cons_of_mem _ hm))
    simp [pySplit, hc, hr]

theorem pySplit_append_sep (sep : Char) (a b : List Char) (h : sep ∉ a) :
    pySplit sep (a ++ sep :: b) = a :: pySplit sep b := by
  induction a with
  | nil => simp [pySplit]
  | cons c a' ih =>
    have hc : ¬ c = sep := fun hcc => h (hcc ▸ List.mem_cons_self _ _)
    have ha' : pySplit sep (a' ++ sep :: b) = a' :: pySplit sep b :=
      ih (fun hm => h (List.mem_cons_of_mem _ hm))
    simp [pySplit, hc, ha']

theorem joinSp_cons_cons (g0 g1 : List Char) (gs : List (List Char)) :
    joinSp (g0 :: g1 :: gs) = g0 ++ ' ' :: joinSp (g1 :: gs) := rfl

theorem joinSp_append_single (ws : List (List Char)) (g : List Char) (h : ws ≠ []) :
    joinSp (ws ++ [g]) = joinSp ws ++ ' ' :: g := by
  induction ws with
  | nil => exact absurd rfl h
  | cons g0 ws' ih =>
    cases ws' with
    | nil => simp [joinSp]
    | cons g1 ws'' =>
      have ihh := ih (by simp)
      have e2 : (g1 :: ws'') ++ [g] = g1 :: (ws'' ++ [g]) := rfl
      rw [e2] at ihh
      calc joinSp ((g0 :: g1 :: ws'') ++ [g])
          = g0 ++ ' ' :: joinSp (g1 :: (ws'' ++ [g])) := rfl
        _ = g0 ++ ' ' :: (joinSp (g1 :: ws'') ++ ' ' :: g) := by rw [ihh]
        _ = joinSp (g0 :: g1 :: ws'') ++ ' ' :: g := by
            rw [joinSp_cons_cons]
            simp

theorem pySplit_joinSp (ws : List (List Char)) (h : ∀ g ∈ ws, ' ' ∉ g) (hne : ws ≠ []) :
    pySplit ' ' (joinSp ws) = ws := by
  induction ws with
  | nil => exact absurd rfl hne
  | cons g ws' ih =>
    cases ws' with
    | nil =>
      exact pySplit_no_sep ' ' g (h g (List.mem_cons_self _ _))
    | cons g1 ws'' =>
      have hj : joinSp (g :: g1 :: ws'') = g ++ ' ' :: joinSp (g1 :: ws'') := rfl
      rw [hj, pySplit_append_sep ' ' g (joinSp (g1 :: ws'')) (h g (List.mem_cons_self _ _))]
      rw [ih (fun x hx => h x (List.mem_cons_of_mem _ hx)) (by simp)]

theorem mk_ne_empty (g : List Char) (h : g ≠ []) : String.mk g ≠ "" := by
  intro hc
  exact h (by simpa using congrArg String.data hc)

theorem wordsOf_joinSp (ws : List (List Char))
    (h : ∀ g ∈ ws, g ≠ [] ∧ ' ' ∉ g) :
    wordsOf (String.mk (joinSp ws)) = ws.map String.mk := by
  cases hws : ws with
  | nil => rfl
  | cons g ws' =>
    rw [← hws]
    have hsplit : pySplit ' ' (joinSp ws) = ws :=
      pySplit_joinSp ws (fun g' hg' => (h g' hg').2) (by rw [hws]; simp)
    unfold wordsOf pySplitStr
    rw [show (String.mk (joinSp ws)).data = joinSp ws from rfl, hsplit]
    rw [List.filter_eq_self.mpr]
    intro x hx
    rcases List.mem_map.mp hx with ⟨g', hg', rfl⟩
    simpa using mk_ne_empty g' (h g' hg').1

theorem dropWhile_eq_self_of_clean (l : List Char) (h : ∀ c ∈ l, pyIsSpace c = false) :
    l.dropWhile pyIsSpace = l := by
  cases l with
  | nil => rfl
  | cons c t => simp [List.dropWhile, h c (List.mem_cons_self _ _)]

theorem dropWhile_eq_self_of_head (c : Char) (t : List Char) (h : pyIsSpace c = false) :
    (c :: t).dropWhile pyIsSpace = c :: t := by
  simp [List.dropWhile, h]

theorem pyStripL_clean (l : List Char) (h : ∀ c ∈ l, pyIsSpace c = false) :
    pyStripL l = l := by
  unfold pyStripL
  rw [dropWhile_eq_self_of_clean l h,
    dropWhile_eq_self_of_clean l.reverse (fun c hc => h c (List.mem_reverse.mp hc)),
    List.reverse_reverse]

theorem joinSp_head (ws : List (List Char)) (hne : ws ≠ [])
    (h : ∀ g ∈ ws, g ≠ [] ∧ ∀ c ∈ g, pyIsSpace c = false) :
    ∃ c cs, joinSp ws = c :: cs ∧ pyIsSpace c = false := by
  induction ws with
  | nil => exact absurd rfl hne
  | cons g ws' ih =>
    have hg := h g (List.mem_cons_self _ _)
    rcases hgne : g with _ | ⟨c, cs⟩
    · exact absurd hgne hg.1
    cases ws' with
    | nil =>
      exact ⟨c, cs, rfl, hg.2 c (by rw [hgne]; exact List.mem_cons_self _ _)⟩
    | cons g1 ws'' =>
      refine ⟨c, cs ++ ' ' :: joinSp (g1 :: ws''), ?_,
        hg.2 c (by rw [hgne]; exact List.mem_cons_self _ _)⟩
      rw [joinSp_cons_cons]
      simp

theorem joinSp_rev_head (ws : List (List Char)) (hne : ws ≠ [])
    (h : ∀ g ∈ ws, g ≠ [] ∧ ∀ c ∈ g, pyIsSpace c = false) :
    ∃ c cs, (joinSp ws).reverse = c :: cs ∧ pyIsSpace c = false := by
  induction ws with
  | nil => exact absurd rfl hne
  | cons g ws' ih =>
    have hg := h g (List.mem_cons_self _ _)
    cases ws' with
    | nil =>
      rcases hr : g.reverse with _ | ⟨c, cs⟩
      · exact absurd (List.reverse_eq_nil_iff.mp hr) hg.1
      · refine ⟨c, cs, hr, hg.2 c ?_⟩
        have : c ∈ g.reverse := by rw [hr]; exact List.mem_cons_self _ _
        exact List.mem_reverse.mp this
    | cons g1 ws'' =>
      rcases ih (by simp) (fun x hx => h x (List.mem_cons_of_mem _ hx)) with ⟨c, cs, hc, hcws⟩
      refine ⟨c, cs ++ ' ' :: g.reverse, ?_, hcws⟩
      rw [joinSp_cons_cons, List.reverse_append]
      rw [show (' ' :: joinSp (g1 :: ws'')).reverse = (joinSp (g1 :: ws'')).reverse ++ [' '] by simp]
      rw [hc]
      simp

theorem pyStripL_joinSp (ws : List (List Char)) (hne : ws ≠ [])
    (h : ∀ g ∈ ws, g ≠ [] ∧ ∀ c ∈ g, pyIsSpace c = false) :
    pyStripL (joinSp ws) = joinSp ws := by
  rcases joinSp_head ws hne h with ⟨c, cs, hj, hc⟩
  rcases joinSp_rev_head ws hne h with ⟨c', cs', hj', hc'⟩
  unfold pyStripL
  rw [hj, dropWhile_eq_self_of_head c cs hc, ← hj, hj', dropWhile_eq_self_of_head c' cs' hc',
    ← hj', List.reverse_reverse]

theorem pyStripL_joinSp_trailing (ws : List (List Char)) (hne : ws ≠ [])
    (h : ∀ g ∈ ws, g ≠ [] ∧ ∀ c ∈ g, pyIsSpace c = false) :
    pyStripL (joinSp ws ++ [' ']) = joinSp ws := by
  rcases joinSp_head ws hne h with ⟨c, cs, hj, hc⟩
  rcases joinSp_rev_head ws hne h with ⟨c', cs', hj', hc'⟩
  unfold pyStripL
  rw [hj]
  rw [show (c :: cs) ++ [' '] = c :: (cs ++ [' ']) from rfl,
    dropWhile_eq_self_of_head c (cs ++ [' ']) hc,
    show c :: (cs ++ [' ']) = (c :: cs) ++ [' '] from rfl, ← hj, List.reverse_append]
  rw [show ([' '] : List Char).reverse = [' '] from rfl]
  rw [show ([' '] : List Char) ++ (joinSp ws).reverse = ' ' :: (joinSp ws).reverse from rfl]
  rw [show (' ' :: (joinSp ws).reverse).dropWhile pyIsSpace
        = ((joinSp ws).reverse).dropWhile pyIsSpace by
      simp [List.dropWhile, show pyIsSpace ' ' = true from by decide]]
  rw [hj', dropWhile_eq_self_of_head c' cs' hc', ← hj', List.reverse_reverse]

theorem pyStripL_leading_space (w : List Char) (h : ∀ c ∈ w, pyIsSpace c = false) :
    pyStripL (' ' :: w) = w := by
  unfold pyStripL
  rw [show (' ' :: w).dropWhile pyIsSpace = w.dropWhile pyIsSpace by
    simp [List.dropWhile, show pyIsSpace ' ' = true from by decide]]
  rw [dropWhile_eq_self_of_clean w h,
    dropWhile_eq_self_of_clean w.reverse (fun c hc => h c (List.mem_reverse.mp hc)),
    List.reverse_reverse]

/-- The key single-step computation: stripping
`current_line ++ " " ++ word` when `current_line` is a canonical join of
clean non-empty words and `word` is whitespace-free appends `word` to the
join (or drops a trailing separator when `word` is empty). -/
theorem pyStripL_join_word (ws : List (List Char)) (w : List Char)
    (hws : ∀ g ∈ ws, g ≠ [] ∧ ∀ c ∈ g, pyIsSpace c = false)
    (hw : ∀ c ∈ w, pyIsSpace c = false) :
    pyStripL (joinSp ws ++ ' ' :: w) = joinSp (ws ++ if w = [] then [] else [w]) := by
  cases hwsne : ws with
  | nil =>
    cases hwe : w with
    | nil => decide
    | cons c cs =>
      rw [hwe] at hw
      rw [show joinSp ([] : List (List Char)) ++ ' ' :: c :: cs = ' ' :: c :: cs from rfl]
      rw [pyStripL_leading_space (c :: cs) hw]
      simp [joinSp]
  | cons g ws' =>
    rw [← hwsne]
    have hne : ws ≠ [] := by rw [hwsne]; simp
    cases hwe : w with
    | nil =>
      rw [show joinSp ws ++ ' ' :: ([] : List Char) = joinSp ws ++ [' '] from rfl]
      rw [pyStripL_joinSp_trailing ws hne hws]
      simp
    | cons c cs =>
      rw [← hwe]
      have hwne : w ≠ [] := by rw [hwe]; simp
      rw [show joinSp ws ++ ' ' :: w = joinSp (ws ++ [w]) by
        rw [joinSp_append_single ws w hne]]
      rw [pyStripL_joinSp (ws ++ [w]) (by simp)
        (by
          intro g' hg'
          rcases List.mem_append.mp hg' with hm | hm
          · exact hws g' hm
          · rw [List.mem_singleton.mp hm]
            exact ⟨hwne, hw⟩)]
      simp [hwne]

theorem data_append3 (ws : List (List Char)) (w : String) :
    (String.mk (joinSp ws) ++ " " ++ w).data = joinSp ws ++ ' ' :: w.data := by
  rw [String.data_append, String.data_append]
  simp

theorem clean_no_space (g : List Char) (h : ∀ c ∈ g, pyIsSpace c = false) : ' ' ∉ g :=
  fun hm => absurd (h ' ' hm) (by decide)

theorem wrapStep_fold_words (fw : String → Nat) (mw : Nat) :
    ∀ (words lines : List String) (ws : List (List Char)),
      (∀ w ∈ words, ∀ c ∈ w.data, pyIsSpace c = false) →
      (∀ g ∈ ws, g ≠ [] ∧ ∀ c ∈ g, pyIsSpace c = false) →
      ∃ ws' : List (List Char),
        (∀ g ∈ ws', g ≠ [] ∧ ∀ c ∈ g, pyIsSpace c = false) ∧
        (words.foldl (wrapStep fw mw) (lines, String.mk (joinSp ws))).2
          = String.mk (joinSp ws') ∧
        (words.foldl (wrapStep fw mw) (lines, String.mk (joinSp ws))).1.flatMap wordsOf
            ++ ws'.map String.mk
          = lines.flatMap wordsOf ++ ws.map String.mk ++ words.filter (fun w => w ≠ "") := by
  intro words
  induction words with
  | nil =>
    intro lines ws _ hws
    exact ⟨ws, hws, rfl, by simp⟩
  | cons w rest ih =>
    intro lines ws hwords hws
    have hw : ∀ c ∈ w.data, pyIsSpace c = false :=
      hwords w (List.mem_cons_self _ _)
    have hrest : ∀ x ∈ rest, ∀ c ∈ x.data, pyIsSpace c = false :=
      fun x hx => hwords x (List.mem_cons_of_mem _ hx)
    have hwjoin : wordsOf (String.mk (joinSp ws)) = ws.map String.mk :=
      wordsOf_joinSp ws (fun g hg => ⟨(hws g hg).1, clean_no_space g (hws g hg).2⟩)
    simp only [List.foldl_cons]
    by_cases hwd : w.data = []
    · have hw0 : w = "" := by
        calc w = String.mk w.data := rfl
          _ = String.mk [] := by rw [hwd]
          _ = "" := rfl
      have htest : pyStrip (String.mk (joinSp ws) ++ " " ++ w) = String.mk (joinSp ws) := by
        unfold pyStrip
        rw [data_append3 ws w, hwd, pyStripL_join_word ws [] hws (by simp)]
        simp
      by_cases hfit : fw (String.mk (joinSp ws)) ≤ mw
      · have hstep : wrapStep fw mw (lines, String.mk (joinSp ws)) w
            = (lines, String.mk (joinSp ws)) := by
          simp [wrapStep, htest, hfit]
        rw [hstep]
        rcases ih lines ws hrest hws with ⟨ws', h1, h2, h3⟩
        refine ⟨ws', h1, h2, ?_⟩
        rw [h3]
        simp [hw0]
      · have hstep : wrapStep fw mw (lines, String.mk (joinSp ws)) w
            = (lines ++ [String.mk (joinSp ws)], String.mk (joinSp [])) := by
          rw [show String.mk (joinSp []) = w by rw [hw0]; rfl]
          simp [wrapStep, htest, hfit]
        rw [hstep]
        rcases ih (lines ++ [String.mk (joinSp ws)]) [] hrest (by simp) with ⟨ws', h1, h2, h3⟩
        refine ⟨ws', h1, h2, ?_⟩
        rw [h3, List.flatMap_append]
        simp [hwjoin, hw0, List.append_assoc]
    · have hwne : w ≠ "" := by
        intro hww
        subst hww
        exact hwd rfl
      have htest : pyStrip (String.mk (joinSp ws) ++ " " ++ w)
          = String.mk (joinSp (ws ++ [w.data])) := by
        unfold pyStrip
        rw [data_append3 ws w, pyStripL_join_word ws w.data hws hw]
        simp [hwd]
      have hws2 : ∀ g ∈ ws ++ [w.data], g ≠ [] ∧ ∀ c ∈ g, pyIsSpace c = false := by
        intro g hg
        rcases List.mem_append.mp hg with hm | hm
        · exact hws g hm
        · rw [List.mem_singleton.mp hm]
          exact ⟨hwd, hw⟩
      by_cases hfit : fw (String.mk (joinSp (ws ++ [w.data]))) ≤ mw
      · have hstep : wrapStep fw mw (lines, String.mk (joinSp ws)) w
            = (lines, String.mk (joinSp (ws ++ [w.data]))) := by
          simp [wrapStep, htest, hfit]
        rw [hstep]
        rcases ih lines (ws ++ [w.data]) hrest hws2 with ⟨ws', h1, h2, h3⟩
        refine ⟨ws', h1, h2, ?_⟩
        rw [h3]
        rw [show (ws ++ [w.data]).map String.mk = ws.map String.mk ++ [w] by
          simp [show String.mk w.data = w from rfl]]
        simp [hwne, List.append_assoc]
      · have hstep : wrapStep fw mw (lines, String.mk (joinSp ws)) w
            = (lines ++ [String.mk (joinSp ws)], String.mk (joinSp [w.data])) := by
          rw [show String.mk (joinSp [w.data]) = w from rfl]
          simp [wrapStep, htest, hfit]
        rw [hstep]
        rcases ih (lines ++ [String.mk (joinSp ws)]) [w.data] hrest
          (by
            intro g hg
            rw [List.mem_singleton.mp hg]
            exact ⟨hwd, hw⟩) with ⟨ws', h1, h2, h3⟩
        refine ⟨ws', h1, h2, ?_⟩
        rw [h3, List.flatMap_append]
        rw [show ([w.data] : List (List Char)).map String.mk = [w] by
          simp [show String.mk w.data = w from rfl]]
        simp [hwjoin, hwne, List.append_assoc]

theorem pyStripL_eq_nil (l : List Char) (h : pyStripL l = []) :
    ∀ c ∈ l, pyIsSpace c = true := by
  unfold pyStripL at h
  rw [List.reverse_eq_nil_iff] at h
  have hdrop : ∀ x ∈ (l.dropWhile pyIsSpace).reverse, pyIsSpace x = true :=
    List.dropWhile_eq_nil_iff.mp h
  have hdrop' : ∀ x ∈ l.dropWhile pyIsSpace, pyIsSpace x = true :=
    fun x hx => hdrop x (List.mem_reverse.mpr hx)
  intro c hc
  rw [← List.takeWhile_append_dropWhile pyIsSpace l] at hc
  rcases List.mem_append.mp hc with hm | hm
  · exact List.mem_takeWhile_imp hm
  · exact hdrop' c hm

theorem wordsOf_whitespace_only (p : String)
    (hp : ∀ c ∈ p.data, pyIsSpace c = true → c = ' ')
    (hstrip : pyStrip p = "") : wordsOf p = [] := by
  have hnil : pyStripL p.data = [] := by
    have := congrArg String.data hstrip
    simpa [pyStrip] using this
  have hallsp : ∀ c ∈ p.data, c = ' ' :=
    fun c hc => hp c hc (pyStripL_eq_nil p.data hnil c hc)
  have hempty : ∀ g ∈ pySplit ' ' p.data, g = [] := by
    intro g hg
    cases hge : g with
    | nil => rfl
    | cons c cs =>
      have hcm : c ∈ g := by rw [hge]; exact List.mem_cons_self _ _
      have := pySplit_mem ' ' p.data g hg c hcm
      exact absurd (hallsp c this.1) this.2
  unfold wordsOf pySplitStr
  rw [List.filter_eq_nil_iff.mpr]
  intro x hx
  rcases List.mem_map.mp hx with ⟨g, hg, rfl⟩
  rw [hempty g hg]
  simp

theorem wrapParagraph_words (fw : String → Nat) (mw : Nat) (p : String)
    (hp : ∀ c ∈ p.data, pyIsSpace c = true → c = ' ') :
    (wrapParagraph fw mw p).flatMap wordsOf = wordsOf p := by
  by_cases hstrip : pyStrip p = ""
  · rw [wordsOf_whitespace_only p hp hstrip]
    simp [wrapParagraph, hstrip, wordsOf, pySplitStr, pySplit]
  · have hwords : ∀ w ∈ pySplitStr ' ' p, ∀ c ∈ w.data, pyIsSpace c = false := by
      intro w hw c hc
      rcases List.mem_map.mp hw with ⟨g, hg, rfl⟩
      have hm := pySplit_mem ' ' p.data g hg c (by simpa using hc)
      by_contra hws
      have : pyIsSpace c = true := by
        cases h' : pyIsSpace c
        · exact absurd h' hws
        · rfl
      exact hm.2 (hp c hm.1 this)
    rcases wrapStep_fold_words fw mw (pySplitStr ' ' p) [] [] hwords (by simp)
      with ⟨ws', h1, h2, h3⟩
    have hini : (([], String.mk (joinSp [])) : List String × String) = ([], "") := rfl
    rw [hini] at h2 h3
    have hw2 : wordsOf ((pySplitStr ' ' p).foldl (wrapStep fw mw) ([], "")).2
        = ws'.map String.mk := by
      rw [h2]
      exact wordsOf_joinSp ws' (fun g hg => ⟨(h1 g hg).1, clean_no_space g (h1 g hg).2⟩)
    simp only [wrapParagraph, if_neg hstrip]
    rw [List.flatMap_append]
    calc ((pySplitStr ' ' p).foldl (wrapStep fw mw) ([], "")).1.flatMap wordsOf
          ++ [((pySplitStr ' ' p).foldl (wrapStep fw mw) ([], "")).2].flatMap wordsOf
        = ((pySplitStr ' ' p).foldl (wrapStep fw mw) ([], "")).1.flatMap wordsOf
          ++ ws'.map String.mk := by simp [hw2]
      _ = (pySplitStr ' ' p).filter (fun w => w ≠ "") := by simpa using h3
      _ = wordsOf p := rfl

/-- C10 (amended): restricted to texts whose only whitespace characters
— in Python `str.strip()`'s full sense, Unicode whitespace included —
are `' '` and `'\n'`, as is the case for every authored story text, the
in-order concatenation of the space-separated non-empty words of the
lines `wrap_text` emits for a paragraph equals the non-empty words of
that paragraph: wrapping never drops, duplicates, or reorders words, and
runs of spaces collapse to single separators. (For words carrying any
other whitespace, such as a tab or a no-break space, Python's `.strip()`
can erase characters at a line edge, which is the case the original
claim missed.) -/
theorem C10_word_preservation (fw : String → Nat) (mw : Nat) (text : String)
    (htext : ∀ c ∈ text.data, pyIsSpace c = true → c = ' ' ∨ c = '\n') :
    (∀ p ∈ pySplitStr '\n' text, (wrapParagraph fw mw p).flatMap wordsOf = wordsOf p) ∧
    (wrap_text fw mw text).flatMap wordsOf = (pySplitStr '\n' text).flatMap wordsOf := by
  have hpar : ∀ p ∈ pySplitStr '\n' text, ∀ c ∈ p.data, pyIsSpace c = true → c = ' ' := by
    intro p hp c hc hws
    rcases List.mem_map.mp hp with ⟨g, hg, rfl⟩
    have hm := pySplit_mem '\n' text.data g hg c (by simpa using hc)
    rcases htext c hm.1 hws with h | h
    · exact h
    · exact absurd h hm.2
  refine ⟨fun p hp => wrapParagraph_words fw mw p (hpar p hp), ?_⟩
  have hgen : ∀ L : List String,
      (∀ p ∈ L, (wrapParagraph fw mw p).flatMap wordsOf = wordsOf p) →
      (L.flatMap (wrapParagraph fw mw)).flatMap wordsOf = L.flatMap wordsOf := by
    intro L
    induction L with
    | nil => intro _; simp
    | cons p rest ih =>
      intro h
      simp only [List.flatMap_cons, List.flatMap_append]
      rw [h p (List.mem_cons_self _ _), ih (fun q hq => h q (List.mem_cons_of_mem _ hq))]
  exact hgen (pySplitStr '\n' text) (fun p hp => wrapParagraph_words fw mw p (hpar p hp))

/-- C10 counterexample to the claim as stated: the paragraph `"ab\t x"`
(containing a tab inside the word `"ab\t"`) wraps — under a font where
everything fits — to the single line `"ab x"`: Python's `.strip()` on the
grown line erased the trailing tab, so the emitted words `["ab", "x"]`
differ from the paragraph's space-separated words `["ab\t", "x"]`. -/
theorem C10_word_preservation_counterexample :
    wrap_text (fun _ => 0) 0 "ab\t x" = ["ab x"] ∧
    (wrap_text (fun _ => 0) 0 "ab\t x").flatMap wordsOf = ["ab", "x"] ∧
    wordsOf "ab\t x" = ["ab\t", "x"] ∧
    (["ab", "x"] : List String) ≠ ["ab\t", "x"] := by decide

/-- C10 witness at concrete inputs. -/
theorem C10_word_preservation_witness :
    (wrap_text String.length 5 "aa bb cc").flatMap wordsOf
      = (pySplitStr '\n' "aa bb cc").flatMap wordsOf :=
  (C10_word_preservation String.length 5 "aa bb cc" (by decide)).2

/-! ## Claims about the choice handler -/

/-- C1: for every in-range choice, the derived key is `str(i+1)` from the
root key `"start"` and `K ++ "_" ++ str(i+1)` from any non-root key `K`;
when the derived key names a non-redirect node, the handler moves the
current key to exactly the derived key; in particular choosing index 0 at
`"start"` leads to node `"1"` and index 1 to node `"2"`. -/
theorem C1_key_derivation :
    (∀ i : Int, derivedKey "start" i = toString (i + 1)) ∧
    (∀ K : String, K ≠ "start" → ∀ i : Int,
        derivedKey K i = K ++ "_" ++ toString (i + 1)) ∧
    (∀ (tree : List (String × StoryNode)) (now : Nat) (s : GameState) (i : Int)
        (node : StoryNode),
        0 ≤ i →
        i < ((((lookupNode tree s.current_node_key).map StoryNode.choices).getD []).length : Int) →
        lookupNode tree (derivedKey s.current_node_key i) = some node →
        node.redirect = none →
        ∃ s', handleChoice tree now s i = some s' ∧
          s'.current_node_key = derivedKey s.current_node_key i) ∧
    (handleChoice choices_tree 0 initState 0).map GameState.current_node_key = some "1" ∧
    (handleChoice choices_tree 0 initState 1).map GameState.current_node_key = some "2" := by
  refine ⟨fun i => by simp [derivedKey], fun K hK i => by simp [derivedKey, hK],
    ?_, by decide, by decide⟩
  intro tree now s i node h0 hlen hlook hred
  have hcond : 0 ≤ i ∧
      i < ((((lookupNode tree s.current_node_key).map StoryNode.choices).getD []).length : Int) :=
    ⟨h0, hlen⟩
  simp only [handleChoice, if_pos hcond, hlook, hred]
  exact ⟨_, rfl, rfl⟩

set_option maxRecDepth 16384 in
/-- C1 witness at concrete inputs. -/
theorem C1_key_derivation_witness :
    ∃ s', handleChoice choices_tree 0 initState 0 = some s' ∧
      s'.current_node_key = derivedKey initState.current_node_key 0 :=
  C1_key_derivation.2.2.1 choices_tree 0 initState 0
    { text := some "You chose to investigate the noise. It becomes more static, giving eerie vibes and it grows louder.\nDo you really want to investigate the sound or call someone?",
      choices := ["Yes, these things don't scare me anymore.", "Call someone for help"] }
    (by decide) (by decide) (by decide) (by decide)

/-- C2: when an in-range choice derives a key absent from the story
mapping, the handler raises no error: it returns a state in the ending
phase whose typewriter was reset (reveal count 0) with exactly the
fallback message, leaving the current node key unchanged. -/
theorem C2_unwritten_fallback (tree : List (String × StoryNode)) (now : Nat)
    (s : GameState) (i : Int)
    (h0 : 0 ≤ i)
    (hlen : i < ((((lookupNode tree s.current_node_key).map StoryNode.choices).getD []).length : Int))
    (habs : lookupNode tree (derivedKey s.current_node_key i) = none) :
    ∃ s', handleChoice tree now s i = some s' ∧
      s'.game_state = GamePhase.ending ∧
      s'.typewriter.full_text = "This path has not been written yet. The story ends here." ∧
      s'.typewriter.current_index = 0 ∧
      s'.current_node_key = s.current_node_key := by
  have hcond : 0 ≤ i ∧
      i < ((((lookupNode tree s.current_node_key).map StoryNode.choices).getD []).length : Int) :=
    ⟨h0, hlen⟩
  simp only [handleChoice, if_pos hcond, habs]
  exact ⟨_, rfl, rfl, rfl, rfl, rfl⟩

/-- C2 witness at concrete inputs: the spec's example — from node
`"2_2_1"` the second option derives `"2_2_1_2"`, which is not authored. -/
theorem C2_unwritten_fallback_witness :
    ∃ s', handleChoice choices_tree 0 (stateAt "2_2_1") 1 = some s' ∧
      s'.game_state = GamePhase.ending ∧
      s'.typewriter.full_text = "This path has not been written yet. The story ends here." ∧
      s'.typewriter.current_index = 0 ∧
      s'.current_node_key = (stateAt "2_2_1").current_node_key :=
  C2_unwritten_fallback choices_tree 0 (stateAt "2_2_1") 1
    (by decide) (by decide) (by decide)

/-- C4: a choice index outside `0 ≤ i < len(current node's choices)` —
including the `-1` produced by any key press other than the digits 1–9 —
is a complete no-op: the handler returns the state unchanged
(current key, game phase and typewriter all identical) and raises no
error. -/
theorem C4_out_of_range_noop :
    (∀ (tree : List (String × StoryNode)) (now : Nat) (s : GameState) (i : Int),
        ¬(0 ≤ i ∧
          i < ((((lookupNode tree s.current_node_key).map StoryNode.choices).getD []).length : Int)) →
        handleChoice tree now s i = some s) ∧
    (∀ (tree : List (String × StoryNode)) (now : Nat) (s : GameState) (key : Int),
        ¬(49 ≤ key ∧ key ≤ 57) →
        handleChoice tree now s (choiceIndexOfKey key) = some s) := by
  have hmain : ∀ (tree : List (String × StoryNode)) (now : Nat) (s : GameState) (i : Int),
      ¬(0 ≤ i ∧
        i < ((((lookupNode tree s.current_node_key).map StoryNode.choices).getD []).length : Int)) →
      handleChoice tree now s i = some s := by
    intro tree now s i h
    simp only [handleChoice, if_neg h]
  refine ⟨hmain, fun tree now s key hk => ?_⟩
  have hidx : choiceIndexOfKey key = -1 := by
    simp [choiceIndexOfKey, hk]
  rw [hidx]
  exact hmain tree now s (-1) (by omega)

/-- C4 witness at concrete inputs: index 5 with only two choices offered,
and a non-digit key press (ESC, key code 27). -/
theorem C4_out_of_range_noop_witness :
    handleChoice choices_tree 0 initState 5 = some initState ∧
    handleChoice choices_tree 0 initState (choiceIndexOfKey 27) = some initState :=
  ⟨C4_out_of_range_noop.1 choices_tree 0 initState 5 (by decide),
   C4_out_of_range_noop.2 choices_tree 0 initState 27 (by decide)⟩

/-- C3 counterexample to the claim as stated: on a story table with a
chained redirect `"1"` → `"A"` → `"B"`, resolution does not continue to
the non-redirect node `"B"` — the handler stops at `"A"` and, finding no
`"text"` key there, shows the default `"The story ends here."` in the
ending state instead of node `"B"`'s content `"deep text"`; and on a
cyclic table `"1"` → `"1"` no validation error is raised or load-time
failure surfaced — the transition returns normally with the same default
ending. -/
theorem C3_redirect_resolution_counterexample :
    (handleChoice redirectChainTree 0 (stateAt "start") 0).map
        (fun s => (s.current_node_key, s.game_state, s.typewriter.full_text))
      = some ("A", GamePhase.ending, "The story ends here.") ∧
    (lookupNode redirectChainTree "A").map StoryNode.redirect = some (some "B") ∧
    (lookupNode redirectChainTree "B").map StoryNode.text = some (some "deep text") ∧
    ("The story ends here." : String) ≠ "deep text" ∧
    (handleChoice redirectCycleTree 0 (stateAt "start") 0).map
        (fun s => (s.game_state, s.typewriter.full_text))
      = some (GamePhase.ending, "The story ends here.") := by decide

/-- C3 (amended): the handler follows a redirect exactly once — never
chaining — and performs no cycle detection and no validation: when the
derived key maps to a redirect node, the current key becomes the redirect
target and the displayed content is the target node's (with the default
text `"The story ends here."` and the ending state if the target is
itself a redirect, and a `KeyError` if the target is absent). For the
single redirect in the authored data this one hop suffices: from node
`"1_2"`, choice 0 derives `"1_2_1"`, whose redirect resolves to node
`"1_1"`, and the displayed text equals node `"1_1"`'s text exactly. No
input can loop forever, since at most one hop is ever taken. -/
theorem C3_redirect_resolution :
    (∀ (tree : List (String × StoryNode)) (now : Nat) (s : GameState) (i : Int)
        (target_node : StoryNode) (r : String),
        0 ≤ i →
        i < ((((lookupNode tree s.current_node_key).map StoryNode.choices).getD []).length : Int) →
        lookupNode tree (derivedKey s.current_node_key i) = some target_node →
        target_node.redirect = some r →
        handleChoice tree now s i
          = match lookupNode tree r with
            | some node =>
              some { s with
                current_node_key := r,
                typewriter := s.typewriter.set_text (node.text.getD "The story ends here.") now,
                game_state := if node.choices ≠ [] then .narrative else .ending }
            | none => none) ∧
    (handleChoice choices_tree 0 (stateAt "1_2") 0).map GameState.current_node_key
      = some "1_1" ∧
    (handleChoice choices_tree 0 (stateAt "1_2") 0).map
        (fun s => some s.typewriter.full_text)
      = (lookupNode choices_tree "1_1").map StoryNode.text := by
  refine ⟨?_, by decide, ?_⟩
  · intro tree now s i target_node r h0 hlen hlook hred
    have hcond : 0 ≤ i ∧
        i < ((((lookupNode tree s.current_node_key).map StoryNode.choices).getD []).length : Int) :=
      ⟨h0, hlen⟩
    simp only [handleChoice, if_pos hcond, hlook, hred]
  · set_option maxRecDepth 16384 in decide

/-- C3 witness at concrete inputs: the single-hop rule applied to the
authored redirect `"1_2_1"` → `"1_1"`. -/
theorem C3_redirect_resolution_witness :
    handleChoice choices_tree 0 (stateAt "1_2") 0
      = match lookupNode choices_tree "1_1" with
        | some node =>
          some { stateAt "1_2" with
            current_node_key := "1_1",
            typewriter := (stateAt "1_2").typewriter.set_text
              (node.text.getD "The story ends here.") 0,
            game_state := if node.choices ≠ [] then .narrative else .ending }
        | none => none :=
  C3_redirect_resolution.1 choices_tree 0 (stateAt "1_2") 0
    { redirect := some "1_1" } "1_1" (by decide) (by decide) (by decide) (by decide)
